import Mathlib

/-!
Verification of the gonext CLI (project scaffolding and code generation).

The development shallowly embeds the two command files of the repository:

* `cmd/generate.go` — `getModuleName`, `ensureModuleDirs`, and the `Run`
  bodies of `controllerCmd`, `serviceCmd`, `repositoryCmd`, `moduleCmd`,
  modelled as pure functions over an association-list file system
  (`DiskState`).  `os.WriteFile` overwrites, `os.Stat` is a lookup,
  `os.MkdirAll` is an idempotent directory insertion.
* the `new`-command file — `updateGoMod`, `updateImports` and the `Run`
  body of `newCmd`, modelled over a list of files carrying read/write
  success flags (`WalkFile`), with the external collaborators (git being
  installed, the clone, the `.git` removal, the rename, stdin) modelled
  as boolean oracles in `NewWorld`.

Text is modelled as `List Char` (Go operates on bytes of UTF-8 text;
matching a valid UTF-8 pattern in valid UTF-8 text coincides with
rune-level matching, and every theorem below instantiates with ASCII).
The Go standard-library string functions that the code uses are embedded
one by one (`strings.HasPrefix`, `strings.Split`, `strings.Join`,
`strings.TrimSpace`, `strings.ReplaceAll`, `strings.Title`), restricted
where noted to their ASCII fragment, which is the fragment exercised by
every theorem in this file.
-/

/-- Go `strings.HasPrefix p s` (argument order: pattern first here):
`hasPre p s` is `true` iff `s` starts with `p`. -/
def hasPre : List Char → List Char → Bool
  | [], _ => true
  | _ :: _, [] => false
  | a :: as, b :: bs => a == b && hasPre as bs

/-- Go `strings.HasSuffix`: `hasSuf p s` is `true` iff `s` ends with `p`. -/
def hasSuf (p s : List Char) : Bool :=
  hasPre p.reverse s.reverse

/-- Go `strings.Split(s, "\n")` (the only separator the code splits on):
split into the list of newline-free segments; never returns `[]`. -/
def splitNl : List Char → List (List Char)
  | [] => [[]]
  | c :: rest =>
    if c = '\n' then [] :: splitNl rest
    else
      match splitNl rest with
      | [] => [[c]]
      | l :: ls => (c :: l) :: ls

/-- Go `strings.Join(lines, "\n")`. -/
def joinNl : List (List Char) → List Char
  | [] => []
  | [l] => l
  | l :: l₂ :: ls => l ++ '\n' :: joinNl (l₂ :: ls)

/-- ASCII fragment of `unicode.IsSpace`, as used by Go `strings.TrimSpace`.
All inputs in this development are ASCII. -/
def isGoSpace (c : Char) : Bool :=
  c == ' ' || c == '\t' || c == '\n' || c == '\x0B' || c == '\x0C' || c == '\r'

/-- Go `strings.TrimSpace` (ASCII fragment). -/
def trimSpace (l : List Char) : List Char :=
  ((l.dropWhile isGoSpace).reverse.dropWhile isGoSpace).reverse

/-- Fuel-driven worker for Go `strings.Replace(s, old, new, -1)` with a
nonempty pattern: leftmost non-overlapping matches of `p` are replaced by
`n`.  The fuel argument only makes the recursion structural; it is always
called with enough fuel (`s.length`). -/
def replGoF (p n : List Char) : Nat → List Char → List Char
  | _, [] => []
  | 0, l => l
  | fuel + 1, c :: rest =>
    if !p.isEmpty && hasPre p (c :: rest) then
      n ++ replGoF p n fuel (List.drop (p.length - 1) rest)
    else
      c :: replGoF p n fuel rest

/-- Go `strings.Replace(s, p, n, -1)` for nonempty `p`. -/
def replGo (p n s : List Char) : List Char :=
  replGoF p n s.length s

/-- Go `strings.Replace(s, "", n, -1)`: `n` is inserted before every rune
and once at the end. -/
def interleaveAll (n : List Char) : List Char → List Char
  | [] => n
  | c :: rest => n ++ c :: interleaveAll n rest

/-- Go `strings.ReplaceAll(s, p, n)`, including the empty-pattern case. -/
def goReplaceAll (s p n : List Char) : List Char :=
  if p.isEmpty then interleaveAll n s else replGo p n s

/-- The content transformation performed per file by `updateImports`
(`newCmd` file, lines 106-108): first replace `old ++ "/"` by
`new ++ "/"`, then replace `"\"" ++ old ++ "/"` by `"\"" ++ new ++ "/"`. -/
def updContent (oldM newM s : List Char) : List Char :=
  goReplaceAll (goReplaceAll s (oldM ++ ['/']) (newM ++ ['/']))
    ('"' :: (oldM ++ ['/'])) ('"' :: (newM ++ ['/']))

/-- The content transformation performed by `updateGoMod` (lines 81-91):
split into lines, replace the first line by `"module " ++ newModule` when
it starts with `"module "`, and join the lines back. -/
def updGoModContent (content newModule : List Char) : List Char :=
  let lines := splitNl content
  joinNl
    (match lines with
     | [] => []
     | l0 :: ls =>
       if hasPre ("module ".data) l0 then ("module ".data ++ newModule) :: ls
       else l0 :: ls)

/-- The `isSeparator` predicate from Go `strings.Title`, ASCII fragment (the non-ASCII
branch consults Unicode tables and is not exercised here: every name in
the theorems below is ASCII). -/
def goIsSeparator (c : Char) : Bool :=
  if c.toNat ≤ 0x7F then
    !(('0' ≤ c && c ≤ '9') || ('a' ≤ c && c ≤ 'z') || ('A' ≤ c && c ≤ 'Z') || c == '_')
  else
    false

/-- Go `unicode.ToTitle` on ASCII letters is plain upper-casing; `Char.toUpper`
agrees with it on the ASCII fragment used here. -/
def goToTitle (c : Char) : Char :=
  c.toUpper

/-- Worker for Go `strings.Title`: the accumulator is the previous rune,
initially a space. -/
def goTitleAux : Char → List Char → List Char
  | _, [] => []
  | prev, c :: rest =>
    (if goIsSeparator prev then goToTitle c else c) :: goTitleAux c rest

/-- Go `strings.Title` (ASCII fragment): title-case every rune that begins
a word, where a word begins after a separator rune. -/
def goTitle (s : List Char) : List Char :=
  goTitleAux ' ' s

/-- Go `strings.Title` lifted to `String`, as `generate.go` applies it. -/
def goTitleS (s : String) : String :=
  String.mk (goTitle s.data)

/-! Generate-side model: `cmd/generate.go`. -/

/-- An association-list file system: path to content, in creation order. -/
abbrev Files := List (String × String)

/-- Path lookup (`os.Stat` / `os.ReadFile` success). -/
def fsLookup : Files → String → Option String
  | [], _ => none
  | (p, c) :: rest, q => if p = q then some c else fsLookup rest q

/-- Write as `os.WriteFile` does: create the file or overwrite its content. -/
def fsSet : Files → String → String → Files
  | [], p, c => [(p, c)]
  | (q, d) :: rest, p, c => if q = p then (p, c) :: rest else (q, d) :: fsSet rest p c

/-- Disk state seen by the generate commands: files plus the directories
that have been explicitly created (`os.MkdirAll` targets; parents are
implicit, and directory creation never fails in this model). -/
structure DiskState where
  files : Files
  dirs : List String
deriving DecidableEq

/-- The diagnostics the two command files print, as tags (the exact
`fmt.Printf` texts carry no further information used by any claim). -/
inductive Msg where
  | alreadyExists (path : String)
  | created (path : String)
  | moduleCreated (name : String)
  | gitMissing
  | cloning
  | cloneFailed
  | warnRemoveGit
  | renameFailed
  | errUpdateGoMod
  | errUpdateImports
  | success (projectName : String)
  | tidyReminder
deriving DecidableEq

/-- Idempotent directory creation. -/
def addDir (ds : List String) (d : String) : List String :=
  if d ∈ ds then ds else ds ++ [d]

/-- The path `filepath.Join("internal", module, sub)`. -/
def subdirPath (module sub : String) : String :=
  "internal/" ++ module ++ "/" ++ sub

/-- Model of `ensureModuleDirs` (generate.go lines 36-46): create the four module
subdirectories, in source order.  The loop in `moduleCmd` (lines 244-252)
performs the same four `MkdirAll` calls in the same order. -/
def ensureModuleDirs (module : String) (st : DiskState) : DiskState :=
  ⟨st.files,
    addDir (addDir (addDir (addDir st.dirs (subdirPath module "controller"))
      (subdirPath module "repository")) (subdirPath module "route"))
      (subdirPath module "service")⟩

/-- Model of `getModuleName` (generate.go lines 13-23): read `go.mod` in the working
directory; on read failure, or a first line not starting with `"module "`,
fall back to `"myproject"`; otherwise trim the declaration tail. -/
def getModuleName (fs : Files) : String :=
  match fsLookup fs "go.mod" with
  | none => "myproject"
  | some content =>
    match splitNl content.data with
    | [] => "myproject"
    | l0 :: _ =>
      if hasPre "module ".data l0 then
        String.mk (trimSpace (List.drop ("module ".data.length) l0))
      else "myproject"

def ctrlPath (name module : String) : String :=
  "internal/" ++ module ++ "/controller/" ++ name ++ "Controller.go"

def svcPath (name module : String) : String :=
  "internal/" ++ module ++ "/service/" ++ name ++ "Service.go"

def repoPath (name module : String) : String :=
  "internal/" ++ module ++ "/repository/" ++ name ++ "Repository.go"

def routePath (name module : String) : String :=
  "internal/" ++ module ++ "/route/" ++ name ++ "Route.go"

def moduleGoPath (name : String) : String :=
  "internal/" ++ name ++ "/module.go"

/-- A quoted intra-project import path: `"<module>/<pkgPath>"`.  Every
such reference the generators emit has this shape, with the owning
module identifier in front. -/
def importRef (m pkgPath : String) : String :=
  "\"" ++ m ++ "/" ++ pkgPath ++ "\""

/-- The controller template up to its owning-module import reference. -/
def ctrlHead : String :=
  "package controller\n\nimport (\n\t\"github.com/gofiber/fiber/v2\"\n\t"

/-- The controller template after its owning-module import reference. -/
def ctrlTail (titleName : String) : String :=
  "\n)\n\ntype " ++ titleName ++ "Controller struct \x7b\n\tService *service." ++ titleName ++
  "Service \x60inject:\"type\"\x60\n\x7d\n\n" ++
  "// Create" ++ titleName ++ " handles creating a new " ++ titleName ++
  "\nfunc (c *" ++ titleName ++ "Controller) Create" ++ titleName ++
  "(ctx *fiber.Ctx) error \x7b\n\t// TODO: Implement create logic\n\treturn nil\n\x7d\n\n" ++
  "// Get" ++ titleName ++ " handles retrieving a " ++ titleName ++ " by ID" ++
  "\nfunc (c *" ++ titleName ++ "Controller) Get" ++ titleName ++
  "(ctx *fiber.Ctx) error \x7b\n\t// TODO: Implement get logic\n\treturn nil\n\x7d\n\n" ++
  "// Update" ++ titleName ++ " handles updating a " ++ titleName ++ " by ID" ++
  "\nfunc (c *" ++ titleName ++ "Controller) Update" ++ titleName ++
  "(ctx *fiber.Ctx) error \x7b\n\t// TODO: Implement update logic\n\treturn nil\n\x7d\n\n" ++
  "// Delete" ++ titleName ++ " handles deleting a " ++ titleName ++ " by ID" ++
  "\nfunc (c *" ++ titleName ++ "Controller) Delete" ++ titleName ++
  "(ctx *fiber.Ctx) error \x7b\n\t// TODO: Implement delete logic\n\treturn nil\n\x7d\n"

/-- The controller file rendered by `controllerCmd` (generate.go lines
66-105) and, identically, by `moduleCmd` (lines 300-339).  Literal braces
and backticks of the Go template are written with escapes. -/
def controllerTemplate (moduleName module titleName : String) : String :=
  ctrlHead ++ (importRef moduleName ("internal/" ++ module ++ "/service")
    ++ ctrlTail titleName)

/-- The service template up to its owning-module import reference. -/
def svcHead : String :=
  "package service\n\nimport (\n\t"

/-- The service template after its owning-module import reference. -/
def svcTail (titleName : String) : String :=
  "\n)\n\ntype " ++ titleName ++ "Service struct \x7b\n\tRepository *repository." ++ titleName ++
  "Repository \x60inject:\"type\"\x60\n\x7d\n\n// Create" ++ titleName ++ " creates a new " ++ titleName ++
  "\nfunc (s *" ++ titleName ++ "Service) Create" ++ titleName ++
  "(data interface\x7b\x7d) error \x7b\n\t// TODO: Implement create logic\n\treturn nil\n\x7d\n\n// Get" ++
  titleName ++ " retrieves a " ++ titleName ++ " by ID\nfunc (s *" ++ titleName ++ "Service) Get" ++ titleName ++
  "(id string) (interface\x7b\x7d, error) \x7b\n\t// TODO: Implement get logic\n\treturn nil, nil\n\x7d\n\n// Update" ++
  titleName ++ " updates a " ++ titleName ++ " by ID\nfunc (s *" ++ titleName ++ "Service) Update" ++ titleName ++
  "(id string, data interface\x7b\x7d) error \x7b\n\t// TODO: Implement update logic\n\treturn nil\n\x7d\n\n// Delete" ++
  titleName ++ " deletes a " ++ titleName ++ " by ID\nfunc (s *" ++ titleName ++ "Service) Delete" ++ titleName ++
  "(id string) error \x7b\n\t// TODO: Implement delete logic\n\treturn nil\n\x7d\n"

/-- The service file rendered by `serviceCmd` (lines 132-170) and by
`moduleCmd` (lines 346-384). -/
def serviceTemplate (moduleName module titleName : String) : String :=
  svcHead ++ (importRef moduleName ("internal/" ++ module ++ "/repository")
    ++ svcTail titleName)

/-- The repository file rendered by `repositoryCmd` (lines 196-227) and by
`moduleCmd` (lines 391-422); it mentions no import path. -/
def repositoryTemplate (titleName : String) : String :=
  "package repository\n\ntype " ++ titleName ++ "Repository struct\x7b\x7d\n\n// Create" ++ titleName ++
  " persists a new " ++ titleName ++ "\nfunc (r *" ++ titleName ++ "Repository) Create" ++ titleName ++
  "(data interface\x7b\x7d) error \x7b\n\t// TODO: Implement create logic\n\treturn nil\n\x7d\n\n// Get" ++
  titleName ++ " retrieves a " ++ titleName ++ " by ID\nfunc (r *" ++ titleName ++ "Repository) Get" ++ titleName ++
  "(id string) (interface\x7b\x7d, error) \x7b\n\t// TODO: Implement get logic\n\treturn nil, nil\n\x7d\n\n// Update" ++
  titleName ++ " updates a " ++ titleName ++ " by ID\nfunc (r *" ++ titleName ++ "Repository) Update" ++ titleName ++
  "(id string, data interface\x7b\x7d) error \x7b\n\t// TODO: Implement update logic\n\treturn nil\n\x7d\n\n// Delete" ++
  titleName ++ " deletes a " ++ titleName ++ " by ID\nfunc (r *" ++ titleName ++ "Repository) Delete" ++ titleName ++
  "(id string) error \x7b\n\t// TODO: Implement delete logic\n\treturn nil\n\x7d\n"

/-- The `module.go` template from its framework import on. -/
def modTail (name titleName : String) : String :=
  "\n\n\t\"github.com/gofiber/fiber/v2\"\n)\n\ntype " ++
  titleName ++ "Module struct \x7b\n\tController *controller." ++ titleName ++
  "Controller\n\x7d\n\nfunc New" ++
  titleName ++ "Module() *" ++ titleName ++ "Module \x7b\n\treturn &" ++ titleName ++
  "Module\x7b\x7d\n\x7d\n\nfunc (m *" ++
  titleName ++ "Module) Register(container *app.Container) \x7b\n\trepo := &repository." ++ titleName ++
  "Repository\x7b\x7d\n\tservice := &service." ++ titleName ++ "Service\x7b\x7d\n\tcontroller := &controller." ++
  titleName ++
  "Controller\x7b\x7d\n\tapp.RegisterModuleComponents(container, repo, service, controller)\n\tm.Controller = controller\n\x7d\n\nfunc (m *" ++
  titleName ++ "Module) MountRoutes(router fiber.Router) \x7b\n\tgroup := router.Group(\"/" ++ name ++
  "s\")\n\troute.Register" ++
  titleName ++ "Routes(group, m.Controller)\n\x7d\n"

/-- The `module.go` file rendered by `moduleCmd` (lines 255-293), with
its five import references written through `importRef`. -/
def moduleTemplate (name moduleName titleName : String) : String :=
  ("package " ++ name ++ "\n\nimport (\n\t") ++
  (importRef moduleName "app" ++ ("\n\t" ++
  (importRef moduleName ("internal/" ++ name ++ "/controller") ++ ("\n\t" ++
  (importRef moduleName ("internal/" ++ name ++ "/repository") ++ ("\n\t" ++
  (importRef moduleName ("internal/" ++ name ++ "/route") ++ ("\n\t" ++
  (importRef moduleName ("internal/" ++ name ++ "/service")
    ++ modTail name titleName)))))))))

/-- The route template up to its owning-module import reference. -/
def routeHead : String :=
  "package route\n\nimport (\n\t\"github.com/gofiber/fiber/v2\"\n\t"

/-- The route template after its owning-module import reference. -/
def routeTail (titleName : String) : String :=
  "\n)\n\nfunc Register" ++ titleName ++ "Routes(route fiber.Router, ctrl *controller." ++ titleName ++
  "Controller) \x7b\n\t// TODO: Register routes for " ++ titleName ++ "\n\x7d\n"

/-- The route file rendered by `moduleCmd` (lines 429-439). -/
def routeTemplate (moduleName name titleName : String) : String :=
  routeHead ++ (importRef moduleName ("internal/" ++ name ++ "/controller")
    ++ routeTail titleName)

/-- Model of `controllerCmd.Run` (generate.go lines 48-112): derive names, ensure
the module directories, and create the controller file unless it already
exists, in which case nothing is written. -/
def controllerCmdRun (name module : String) (st : DiskState) : DiskState × List Msg :=
  let titleName := goTitleS name
  let moduleName := getModuleName st.files
  let st₁ := ensureModuleDirs module st
  let file := ctrlPath name module
  match fsLookup st₁.files file with
  | some _ => (st₁, [Msg.alreadyExists file])
  | none =>
    (⟨fsSet st₁.files file (controllerTemplate moduleName module titleName), st₁.dirs⟩,
     [Msg.created file])

/-- Model of `serviceCmd.Run` (lines 114-177). -/
def serviceCmdRun (name module : String) (st : DiskState) : DiskState × List Msg :=
  let titleName := goTitleS name
  let moduleName := getModuleName st.files
  let st₁ := ensureModuleDirs module st
  let file := svcPath name module
  match fsLookup st₁.files file with
  | some _ => (st₁, [Msg.alreadyExists file])
  | none =>
    (⟨fsSet st₁.files file (serviceTemplate moduleName module titleName), st₁.dirs⟩,
     [Msg.created file])

/-- Model of `repositoryCmd.Run` (lines 179-234); it reads no module name. -/
def repositoryCmdRun (name module : String) (st : DiskState) : DiskState × List Msg :=
  let titleName := goTitleS name
  let st₁ := ensureModuleDirs module st
  let file := repoPath name module
  match fsLookup st₁.files file with
  | some _ => (st₁, [Msg.alreadyExists file])
  | none =>
    (⟨fsSet st₁.files file (repositoryTemplate titleName), st₁.dirs⟩,
     [Msg.created file])

/-- Model of `moduleCmd.Run` (lines 236-446): create the four subdirectories, then
write the five files unconditionally — there is no `os.Stat` existence
check in this command, and `os.WriteFile` overwrites.  Write errors are
not modelled (every write succeeds). -/
def moduleCmdRun (name : String) (st : DiskState) : DiskState × List Msg :=
  let titleName := goTitleS name
  let moduleName := getModuleName st.files
  let st₁ := ensureModuleDirs name st
  let f₁ := fsSet st₁.files (moduleGoPath name) (moduleTemplate name moduleName titleName)
  let f₂ := fsSet f₁ (ctrlPath name name) (controllerTemplate moduleName name titleName)
  let f₃ := fsSet f₂ (svcPath name name) (serviceTemplate moduleName name titleName)
  let f₄ := fsSet f₃ (repoPath name name) (repositoryTemplate titleName)
  let f₅ := fsSet f₄ (routePath name name) (routeTemplate moduleName name titleName)
  (⟨f₅, st₁.dirs⟩, [Msg.moduleCreated name])

/-- The three name forms `generate.go` derives from one raw name:
`strings.Title name` (the generated type-name, lines 55/242), the raw
name itself (the directory/package/file segment, used verbatim), and the
route group segment (line 284, `router.Group("/%ss")` applied to the raw
name, i.e. the raw name with a trailing `s` and no lowercasing). -/
def nameBundle (name : List Char) : List Char × List Char × List Char :=
  (goTitle name, name, name ++ ['s'])

/-! New-command side model (the `new` command file). -/

/-- A file seen by the tree walk: path relative to the project root (walk
order is the list order, matching the lexical order `filepath.Walk`
uses), content, and whether `ioutil.ReadFile` / `ioutil.WriteFile`
succeed on it.  Directories are not listed: the walk callback skips
them (`info.IsDir()`). -/
structure WalkFile where
  path : String
  content : String
  readOk : Bool
  writeOk : Bool
deriving DecidableEq

/-- File-list lookup by path. -/
def findFile : List WalkFile → String → Option WalkFile
  | [], _ => none
  | f :: rest, p => if f.path = p then some f else findFile rest p

/-- Replace the content of the file at `path` (no-op if absent). -/
def setFile : List WalkFile → String → String → List WalkFile
  | [], _, _ => []
  | f :: rest, p, c =>
    if f.path = p then ⟨p, c, f.readOk, f.writeOk⟩ :: rest else f :: setFile rest p c

/-- Model of `updateGoMod` (new-command file lines 81-92) over the file list: read
`go.mod` (a missing file is a read failure), rewrite its module line,
write it back.  The flag is `true` iff the function returned an error. -/
def updateGoModFS (files : List WalkFile) (newModule : String) : List WalkFile × Bool :=
  match findFile files "go.mod" with
  | none => (files, true)
  | some f =>
    if f.readOk = false then (files, true)
    else if f.writeOk = false then (files, true)
    else
      (setFile files "go.mod" (String.mk (updGoModContent f.content.data newModule.data)),
       false)

/-- The `updContent` transformation lifted to `String`. -/
def updContentS (oldM newM s : String) : String :=
  String.mk (updContent oldM.data newM.data s.data)

/-- The `filepath.Walk` callback loop of `updateImports` (lines 94-116):
files are visited in list order; non-`.go` files are skipped; the file
is written back only when the two replacement passes changed it.  A read
failure, or a write failure on a changed file, is returned as an error:
`filepath.Walk` then stops, leaving the remaining files unvisited. -/
def updateImportsGo (oldM newM : String) : List WalkFile → List WalkFile × Bool
  | [] => ([], false)
  | f :: rest =>
    if hasSuf ".go".data f.path.data = false then
      let r := updateImportsGo oldM newM rest
      (f :: r.1, r.2)
    else if f.readOk = false then (f :: rest, true)
    else
      let c := updContentS oldM newM f.content
      if c = f.content then
        let r := updateImportsGo oldM newM rest
        (f :: r.1, r.2)
      else if f.writeOk = false then (f :: rest, true)
      else
        let r := updateImportsGo oldM newM rest
        (⟨f.path, c, f.readOk, f.writeOk⟩ :: r.1, r.2)

/-- Model of `updateImports` (lines 94-116): failing to open the project root at
all fails the whole rewrite; otherwise the callback loop runs. -/
def updateImportsFS (rootOk : Bool) (oldM newM : String) (files : List WalkFile) :
    List WalkFile × Bool :=
  if rootOk = false then (files, true) else updateImportsGo oldM newM files

/-- The external collaborators of `newCmd` as oracles: whether `git` is
installed, whether the clone, the `.git` removal and the rename succeed,
the stdin line for the module path, the cloned tree (paths relative to
the project directory, in walk order), and whether the renamed root can
be opened for the walk. -/
structure NewWorld where
  gitAvailable : Bool
  cloneOk : Bool
  removeGitOk : Bool
  renameOk : Bool
  moduleInput : String
  cloned : List WalkFile
  rootReadable : Bool
deriving DecidableEq

/-- The externally visible steps `newCmd` performs, in source order. -/
inductive Act where
  | cloneStep
  | removeGitStep
  | renameStep
  | goModStep
  | importsStep
deriving DecidableEq

structure NewOut where
  msgs : List Msg
  acts : List Act
  files : Option (List WalkFile)
deriving DecidableEq

/-- Model of `newCmd.Run` (lines 19-78): check git (return if missing), clone
(return on failure), strip `.git` (warning only on failure), rename
(return on failure), prompt for the module path (default: the project
name), run `updateGoMod` (error printed, execution continues), run
`updateImports` with old identifier `goNext` (error printed, execution
continues), then print the success lines.  `files = none` means the
command returned before the project directory existed. -/
def newCmdRun (projectName : String) (w : NewWorld) : NewOut :=
  if w.gitAvailable = false then ⟨[Msg.gitMissing], [], none⟩
  else if w.cloneOk = false then ⟨[Msg.cloning, Msg.cloneFailed], [Act.cloneStep], none⟩
  else
    let warnMsgs := if w.removeGitOk = false then [Msg.warnRemoveGit] else []
    if w.renameOk = false then
      ⟨[Msg.cloning] ++ warnMsgs ++ [Msg.renameFailed],
       [Act.cloneStep, Act.removeGitStep], none⟩
    else
      let trimmed := String.mk (trimSpace w.moduleInput.data)
      let modulePath := if trimmed = "" then projectName else trimmed
      let r₁ := updateGoModFS w.cloned modulePath
      let msgs₁ := if r₁.2 then [Msg.errUpdateGoMod] else []
      let r₂ := updateImportsFS w.rootReadable "goNext" modulePath r₁.1
      let msgs₂ := if r₂.2 then [Msg.errUpdateImports] else []
      ⟨[Msg.cloning] ++ warnMsgs ++ msgs₁ ++ msgs₂
          ++ [Msg.success projectName, Msg.tidyReminder],
       [Act.cloneStep, Act.removeGitStep, Act.renameStep, Act.goModStep, Act.importsStep],
       some r₂.1⟩

theorem hasPre_iff : ∀ (p s : List Char), hasPre p s = true ↔ p <+: s
  | [], s => by simp [hasPre]
  | a :: as, [] => by simp [hasPre]
  | a :: as, b :: bs => by
    simp [hasPre, Bool.and_eq_true, beq_iff_eq, hasPre_iff as bs,
      List.cons_prefix_cons]

theorem hasPre_eq_false {p s : List Char} (h : ¬ p <+: s) : hasPre p s = false := by
  rcases hp : hasPre p s with _ | _
  · rfl
  · exact absurd ((hasPre_iff p s).mp hp) h

theorem splitNl_ne_nil : ∀ l : List Char, splitNl l ≠ []
  | [] => by simp [splitNl]
  | c :: rest => by
    by_cases h : c = '\n'
    · simp [splitNl, h]
    · simp only [splitNl, if_neg h]
      rcases hs : splitNl rest with _ | ⟨l₀, ls⟩
      · simp
      · simp

theorem joinNl_splitNl : ∀ l : List Char, joinNl (splitNl l) = l
  | [] => by simp [splitNl, joinNl]
  | c :: rest => by
    by_cases h : c = '\n'
    · subst h
      have ih := joinNl_splitNl rest
      simp only [splitNl, if_pos rfl]
      rcases hs : splitNl rest with _ | ⟨l₀, ls⟩
      · exact absurd hs (splitNl_ne_nil rest)
      · rw [hs] at ih
        simp [joinNl, ih]
    · have ih := joinNl_splitNl rest
      simp only [splitNl, if_neg h]
      rcases hs : splitNl rest with _ | ⟨l₀, ls⟩
      · exact absurd hs (splitNl_ne_nil rest)
      · rw [hs] at ih
        rcases ls with _ | ⟨l₁, ls'⟩
        · simp [joinNl] at ih ⊢
          exact ih
        · simp [joinNl] at ih ⊢
          exact ih

theorem splitNl_no_nl : ∀ l : List Char, '\n' ∉ l → splitNl l = [l]
  | [], _ => rfl
  | c :: rest, h => by
    have hc : ¬ c = '\n' := fun hh => h (hh ▸ List.mem_cons_self c rest)
    have hr : '\n' ∉ rest := fun hh => h (List.mem_cons_of_mem c hh)
    simp only [splitNl, if_neg hc, splitNl_no_nl rest hr]

theorem splitNl_append_nl : ∀ (l₀ rest : List Char), '\n' ∉ l₀ →
    splitNl (l₀ ++ '\n' :: rest) = l₀ :: splitNl rest
  | [], rest, _ => by simp [splitNl]
  | c :: l₀, rest, h => by
    have hc : ¬ c = '\n' := fun hh => h (hh ▸ List.mem_cons_self c l₀)
    have hr : '\n' ∉ l₀ := fun hh => h (List.mem_cons_of_mem c hh)
    have ih := splitNl_append_nl l₀ rest hr
    simp only [List.cons_append, splitNl, if_neg hc, List.append_eq, ih]

theorem replGoF_nil (p n : List Char) : ∀ f : Nat, replGoF p n f [] = []
  | 0 => rfl
  | _ + 1 => rfl

theorem replGoF_ext (p n : List Char) :
    ∀ (f₁ f₂ : Nat) (l : List Char), l.length ≤ f₁ → l.length ≤ f₂ →
      replGoF p n f₁ l = replGoF p n f₂ l := by
  intro f₁
  induction f₁ with
  | zero =>
    intro f₂ l h₁ _
    have hl : l = [] := List.length_eq_zero.mp (Nat.le_zero.mp h₁)
    subst hl
    rw [replGoF_nil, replGoF_nil]
  | succ f ih =>
    intro f₂ l h₁ h₂
    rcases l with _ | ⟨c, rest⟩
    · rw [replGoF_nil, replGoF_nil]
    · rcases f₂ with _ | g
      · exact absurd h₂ (by simp)
      · simp only [replGoF]
        have hd : (List.drop (p.length - 1) rest).length ≤ rest.length := by
          rw [List.length_drop]; omega
        have hlen : rest.length ≤ f := by simp at h₁; omega
        have hlen₂ : rest.length ≤ g := by simp at h₂; omega
        by_cases hc : (!p.isEmpty && hasPre p (c :: rest)) = true
        · rw [if_pos hc, if_pos hc,
            ih g (List.drop (p.length - 1) rest) (by omega) (by omega)]
        · rw [if_neg hc, if_neg hc, ih g rest hlen hlen₂]

theorem replGo_nil (p n : List Char) : replGo p n [] = [] := rfl

theorem replGo_cons_pos {p : List Char} (n : List Char) {c : Char} {rest : List Char}
    (hp : p.isEmpty = false) (h : hasPre p (c :: rest) = true) :
    replGo p n (c :: rest) = n ++ replGo p n (List.drop (p.length - 1) rest) := by
  show replGoF p n (c :: rest).length (c :: rest) = _
  simp only [List.length_cons, replGoF]
  rw [if_pos (by simp [hp, h])]
  unfold replGo
  rw [replGoF_ext p n rest.length (List.drop (p.length - 1) rest).length
    (List.drop (p.length - 1) rest) (by rw [List.length_drop]; omega) le_rfl]

theorem replGo_cons_neg {p : List Char} (n : List Char) {c : Char} {rest : List Char}
    (h : hasPre p (c :: rest) = false) :
    replGo p n (c :: rest) = c :: replGo p n rest := by
  show replGoF p n (c :: rest).length (c :: rest) = _
  simp only [List.length_cons, replGoF]
  rw [if_neg (by simp [h])]
  rfl

theorem hasPre_of_pre {p s : List Char} (h : p <+: s) : hasPre p s = true :=
  (hasPre_iff p s).mpr h

theorem replGo_id_of_no_occ {p n : List Char} :
    ∀ s : List Char, ¬ (p <:+: s) → replGo p n s = s
  | [], _ => rfl
  | c :: rest, h => by
    have hm : hasPre p (c :: rest) = false := by
      by_cases hc : hasPre p (c :: rest) = true
      · exact absurd ((hasPre_iff p _).mp hc).isInfix h
      · simpa using hc
    rw [replGo_cons_neg n hm]
    rw [replGo_id_of_no_occ rest (fun hh => h (List.infix_cons hh))]

theorem pre_split {p a b : List Char} (h : p <+: a ++ b) (hl : a.length < p.length) :
    a <+: p ∧ List.drop a.length p <+: b := by
  obtain ⟨t, ht⟩ := h
  constructor
  · have h1 : a <+: p ++ t := ht ▸ List.prefix_append a b
    exact ( List.isPrefix_append_of_length (Nat.le_of_lt hl)).mp h1
  · have h2 := congrArg (List.drop a.length) ht
    rw [List.drop_left] at h2
    have h0 : a.length - p.length = 0 := Nat.sub_eq_zero_of_le (Nat.le_of_lt hl)
    rw [List.drop_append_eq_append_drop, h0, List.drop_zero] at h2
    exact ⟨t, h2⟩

theorem replGo_scan {p n : List Char} :
    ∀ A : List Char, (∀ i, i < A.length → ¬ (p <+: List.drop i A)) →
      (∀ i, i < A.length → ¬ (List.drop i A <+: p)) →
      ∀ v, replGo p n (A ++ v) = A ++ replGo p n v
  | [], _, _, v => by simp
  | c :: A', hi, hii, v => by
    have hm : hasPre p (c :: (A' ++ v)) = false := by
      apply hasPre_eq_false
      intro hpre
      by_cases hlen : p.length ≤ A'.length + 1
      · have hp2 : p <+: (c :: A') := by
          have : p <+: (c :: A') ++ v := by simpa using hpre
          exact ( List.isPrefix_append_of_length (by simpa using hlen)).mp this
        exact hi 0 (by simp) (by simpa using hp2)
      · have hlt : (c :: A').length < p.length := by simp; omega
        have := (pre_split (by simpa using hpre) hlt).1
        exact hii 0 (by simp) (by simpa using this)
    rw [show (c :: A') ++ v = c :: (A' ++ v) from rfl, replGo_cons_neg n hm]
    rw [replGo_scan A' (fun i hilt => hi (i + 1) (by simp; omega))
      (fun i hilt => hii (i + 1) (by simp; omega)) v]
    rfl

theorem replGo_split (p n A : List Char) (hp : p.isEmpty = false) (hA : p.length ≤ A.length)
    (hAB : ∀ k, k < p.length → 0 < k → ¬ (List.drop k p <+: A)) :
    ∀ (m : Nat) (u : List Char), u.length ≤ m → ∀ v,
      replGo p n (u ++ (A ++ v)) = replGo p n u ++ replGo p n (A ++ v) := by
  intro m
  induction m with
  | zero =>
    intro u hu v
    have h0 : u = [] := List.length_eq_zero.mp (Nat.le_zero.mp hu)
    subst h0
    simp [replGo_nil]
  | succ m ih =>
    intro u hu v
    match u with
    | [] => simp [replGo_nil]
    | c :: u' =>
      rw [show (c :: u') ++ (A ++ v) = c :: (u' ++ (A ++ v)) from rfl]
      by_cases hm : hasPre p (c :: (u' ++ (A ++ v))) = true
      · have hpre : p <+: c :: (u' ++ (A ++ v)) := (hasPre_iff p _).mp hm
        by_cases hlen : p.length ≤ u'.length + 1
        · have hpu : p <+: (c :: u') := by
            have : p <+: (c :: u') ++ (A ++ v) := by simpa using hpre
            exact ( List.isPrefix_append_of_length (by simpa using hlen)).mp this
          rw [replGo_cons_pos n hp hm]
          have h0 : p.length - 1 - u'.length = 0 := by omega
          have hdrop : List.drop (p.length - 1) (u' ++ (A ++ v))
              = List.drop (p.length - 1) u' ++ (A ++ v) := by
            rw [List.drop_append_eq_append_drop, h0, List.drop_zero]
          rw [hdrop, ih (List.drop (p.length - 1) u')
            (by rw [List.length_drop]; simp only [List.length_cons] at hu; omega) v]
          rw [replGo_cons_pos n hp (hasPre_of_pre hpu)]
          simp [List.append_assoc]
        · have hlt : (c :: u').length < p.length := by
            simp only [List.length_cons]; omega
          have hsplit := pre_split (by simpa using hpre) hlt
          have hdl : (List.drop (c :: u').length p).length ≤ A.length := by
            rw [List.length_drop]; omega
          have hpA : List.drop (c :: u').length p <+: A :=
            ( List.isPrefix_append_of_length hdl).mp hsplit.2
          exact absurd hpA (hAB (c :: u').length hlt (by simp))
      · have hm' : hasPre p (c :: (u' ++ (A ++ v))) = false := by simpa using hm
        have hmu : hasPre p (c :: u') = false := by
          apply hasPre_eq_false
          intro hcu
          have : p <+: c :: (u' ++ (A ++ v)) := by
            have := hcu.trans ( List.prefix_append (c :: u') (A ++ v))
            simpa using this
          exact absurd (hasPre_of_pre this) (by simp [hm'])
        rw [replGo_cons_neg n hm', ih u' (by simp at hu; omega) v,
          replGo_cons_neg n hmu]
        rfl

theorem ne_nil_of_not_isEmpty {p : List Char} (hp : p.isEmpty = false) : p ≠ [] := by
  cases p
  · simp at hp
  · simp

theorem replGo_pre_orig {p n : List Char} (hp : p.isEmpty = false)
    (hlen : p.length ≤ n.length)
    (hAB : ∀ k, k < p.length → ¬ (List.drop k p <+: n)) :
    ∀ (m : Nat) (s : List Char), s.length ≤ m → ∀ r, r ≠ [] → r <:+ p →
      r <+: replGo p n s → r <+: s := by
  intro m
  induction m with
  | zero =>
    intro s hs r hr _ hpre
    have h0 : s = [] := List.length_eq_zero.mp (Nat.le_zero.mp hs)
    subst h0
    rw [replGo_nil] at hpre
    exact absurd (List.prefix_nil.mp hpre) hr
  | succ m ih =>
    intro s hs r hr hsuf hpre
    rcases s with _ | ⟨c, rest⟩
    · rw [replGo_nil] at hpre
      exact absurd (List.prefix_nil.mp hpre) hr
    · by_cases hm : hasPre p (c :: rest) = true
      · rw [replGo_cons_pos n hp hm] at hpre
        have hrlen : r.length ≤ p.length := hsuf.length_le
        have hrn : r <+: n :=
          ( List.isPrefix_append_of_length (Nat.le_trans hrlen hlen)).mp hpre
        obtain ⟨t, ht⟩ := hsuf
        have hdrop : List.drop t.length p = r := by
          rw [← ht]; exact List.drop_left t r
        have hklt : t.length < p.length := by
          have h1 : 0 < r.length := List.length_pos.mpr hr
          have h2 : t.length + r.length = p.length := by
            rw [← ht]; simp
          omega
        exact absurd (hdrop ▸ hrn) (hAB t.length hklt)
      · rw [replGo_cons_neg n (by simpa using hm)] at hpre
        rcases r with _ | ⟨rc, r'⟩
        · exact absurd rfl hr
        · have hcc := ( List.cons_prefix_cons).mp hpre
        
          by_cases hr' : r' = []
          · subst hr'
            exact List.cons_prefix_cons.mpr ⟨hcc.1, List.nil_prefix⟩
          · have hsuf' : r' <:+ p := ( List.IsSuffix.trans ⟨[rc], rfl⟩ hsuf)
            have hrec := ih rest (by simp at hs; omega) r' hr' hsuf' hcc.2
            exact List.cons_prefix_cons.mpr ⟨hcc.1, hrec⟩

theorem infix_skip_clean {c : Char} {t b : List Char} :
    ∀ a : List Char, c ∉ a → (c :: t) <:+: a ++ b → (c :: t) <:+: b
  | [], _, h => by simpa using h
  | x :: a', hc, h => by
    have h2 : (c :: t) <:+: x :: (a' ++ b) := by simpa using h
    rcases ( List.infix_cons_iff).mp h2 with h₁ | h₁
    · have := ( List.cons_prefix_cons).mp h₁
      exact absurd (this.1 ▸ List.mem_cons_self x a') (fun hh => hc hh)
    · exact infix_skip_clean a' (fun hh => hc (List.mem_cons_of_mem x hh)) h₁

theorem replGo_no_quoted {p n : List Char} (hp : p.isEmpty = false)
    (hlen : p.length ≤ n.length) (hq : '"' ∉ n)
    (hAB : ∀ k, k < p.length → ¬ (List.drop k p <+: n)) :
    ∀ (m : Nat) (s : List Char), s.length ≤ m → ¬ (('"' :: p) <:+: replGo p n s) := by
  intro m
  induction m with
  | zero =>
    intro s hs hocc
    have h0 : s = [] := List.length_eq_zero.mp (Nat.le_zero.mp hs)
    subst h0
    rw [replGo_nil] at hocc
    simp at hocc
  | succ m ih =>
    intro s hs hocc
    rcases s with _ | ⟨c, rest⟩
    · rw [replGo_nil] at hocc
      simp at hocc
    · by_cases hm : hasPre p (c :: rest) = true
      · rw [replGo_cons_pos n hp hm] at hocc
        have hocc' := infix_skip_clean n hq hocc
        exact ih (List.drop (p.length - 1) rest)
          (by rw [List.length_drop]; simp at hs; omega) hocc'
      · rw [replGo_cons_neg n (by simpa using hm)] at hocc
        rcases ( List.infix_cons_iff).mp hocc with h₁ | h₁
        · have hcc := ( List.cons_prefix_cons).mp h₁
          have hpr : p <+: rest :=
            replGo_pre_orig hp hlen hAB m rest (by simp at hs; omega) p
              (ne_nil_of_not_isEmpty hp) ( List.suffix_refl p) hcc.2
          rcases rest with _ | ⟨d, rest'⟩
          · exact absurd (List.prefix_nil.mp hpr) (ne_nil_of_not_isEmpty hp)
          · have hmr : hasPre p (d :: rest') = true := hasPre_of_pre hpr
            have hpn : p <+: n := by
              have h3 := hcc.2
              rw [replGo_cons_pos n hp hmr] at h3
              exact ( List.isPrefix_append_of_length hlen).mp h3
            have h4 := hAB 0 (by
              have := List.length_pos.mpr (ne_nil_of_not_isEmpty hp); omega)
            rw [List.drop_zero] at h4
            exact absurd hpn h4
        · exact ih rest (by simp at hs; omega) h₁

theorem replGo_no_quoted_all {p n : List Char} (hp : p.isEmpty = false)
    (hlen : p.length ≤ n.length) (hq : '"' ∉ n)
    (hAB : ∀ k, k < p.length → ¬ (List.drop k p <+: n)) (s : List Char) :
    ¬ (('"' :: p) <:+: replGo p n s) :=
  replGo_no_quoted hp hlen hq hAB s.length s le_rfl

theorem fsLookup_fsSet_self : ∀ (fs : Files) (p c : String),
    fsLookup (fsSet fs p c) p = some c
  | [], p, c => by simp [fsSet, fsLookup]
  | (q, d) :: rest, p, c => by
    by_cases h : q = p
    · simp [fsSet, if_pos h, fsLookup]
    · simp only [fsSet, if_neg h, fsLookup]
      exact fsLookup_fsSet_self rest p c

theorem fsSet_fresh : ∀ (fs : Files) (p c : String),
    fsLookup fs p = none → fsSet fs p c = fs ++ [(p, c)]
  | [], p, c, _ => rfl
  | (q, d) :: rest, p, c, h => by
    simp only [fsLookup] at h
    by_cases hq : q = p
    · rw [if_pos hq] at h; exact absurd h (by simp)
    · rw [if_neg hq] at h
      simp only [fsSet, if_neg hq, List.cons_append]
      rw [fsSet_fresh rest p c h]

theorem fsLookup_append_none : ∀ (a b : Files) (p : String),
    fsLookup a p = none → fsLookup b p = none → fsLookup (a ++ b) p = none
  | [], b, p, _, hb => hb
  | (q, d) :: rest, b, p, ha, hb => by
    simp only [fsLookup] at ha ⊢
    by_cases hq : q = p
    · rw [if_pos hq] at ha; exact absurd ha (by simp)
    · rw [if_neg hq] at ha ⊢
      exact fsLookup_append_none rest b p ha hb

theorem fsLookup_single_ne {q p : String} (c : String) (h : ¬ q = p) :
    fsLookup [(q, c)] p = none := by
  simp [fsLookup, if_neg h]

theorem ensure_files (module : String) (st : DiskState) :
    (ensureModuleDirs module st).files = st.files := rfl

theorem mem_addDir_self (ds : List String) (d : String) : d ∈ addDir ds d := by
  by_cases h : d ∈ ds
  · simpa [addDir, if_pos h]
  · simp [addDir, if_neg h]

theorem mem_addDir_of_mem {ds : List String} {a : String} (d : String) (h : a ∈ ds) :
    a ∈ addDir ds d := by
  by_cases hd : d ∈ ds
  · simpa [addDir, if_pos hd]
  · simp [addDir, if_neg hd]
    exact Or.inl h

theorem addDir_of_mem {ds : List String} {d : String} (h : d ∈ ds) :
    addDir ds d = ds := by
  simp [addDir, if_pos h]

theorem ensure_dirs_idem (module : String) (f₂ : Files) (st : DiskState) :
    ensureModuleDirs module ⟨f₂, (ensureModuleDirs module st).dirs⟩
      = ⟨f₂, (ensureModuleDirs module st).dirs⟩ := by
  have h₁ : subdirPath module "controller" ∈ (ensureModuleDirs module st).dirs :=
    mem_addDir_of_mem _ (mem_addDir_of_mem _ (mem_addDir_of_mem _ (mem_addDir_self _ _)))
  have h₂ : subdirPath module "repository" ∈ (ensureModuleDirs module st).dirs :=
    mem_addDir_of_mem _ (mem_addDir_of_mem _ (mem_addDir_self _ _))
  have h₃ : subdirPath module "route" ∈ (ensureModuleDirs module st).dirs :=
    mem_addDir_of_mem _ (mem_addDir_self _ _)
  have h₄ : subdirPath module "service" ∈ (ensureModuleDirs module st).dirs :=
    mem_addDir_self _ _
  generalize hD : (ensureModuleDirs module st).dirs = D at h₁ h₂ h₃ h₄ ⊢
  unfold ensureModuleDirs
  simp only
  rw [addDir_of_mem h₁, addDir_of_mem h₂, addDir_of_mem h₃, addDir_of_mem h₄]

/-- C1 is violated by the composite module kind: `moduleCmd` performs no
existence check and `os.WriteFile` overwrites.  With a pre-existing
`internal/ord/module.go` whose content is `"EDITED"`, running
`generate module ord` replaces that content (so the run performs writes
and the surviving content is not that of the first generation), and no
already-exists diagnostic is reported. -/
theorem c1_counterexample :
    (fsLookup (moduleCmdRun "ord" ⟨[(moduleGoPath "ord", "EDITED")], []⟩).1.files
        (moduleGoPath "ord") ≠ some "EDITED")
  ∧ (moduleCmdRun "ord" ⟨[(moduleGoPath "ord", "EDITED")], []⟩).2
      = [Msg.moduleCreated "ord"] := by
  constructor
  · decide
  · rfl

theorem controllerCmdRun_fresh (name module : String) (st : DiskState)
    (h : fsLookup st.files (ctrlPath name module) = none) :
    controllerCmdRun name module st
      = (⟨fsSet st.files (ctrlPath name module)
            (controllerTemplate (getModuleName st.files) module (goTitleS name)),
          (ensureModuleDirs module st).dirs⟩,
         [Msg.created (ctrlPath name module)]) := by
  unfold controllerCmdRun
  simp only [ensure_files, h]

theorem controllerCmdRun_exists (name module : String) (st : DiskState)
    {c : String} (h : fsLookup st.files (ctrlPath name module) = some c) :
    controllerCmdRun name module st
      = (ensureModuleDirs module st, [Msg.alreadyExists (ctrlPath name module)]) := by
  unfold controllerCmdRun
  simp only [ensure_files, h]

theorem serviceCmdRun_fresh (name module : String) (st : DiskState)
    (h : fsLookup st.files (svcPath name module) = none) :
    serviceCmdRun name module st
      = (⟨fsSet st.files (svcPath name module)
            (serviceTemplate (getModuleName st.files) module (goTitleS name)),
          (ensureModuleDirs module st).dirs⟩,
         [Msg.created (svcPath name module)]) := by
  unfold serviceCmdRun
  simp only [ensure_files, h]

theorem serviceCmdRun_exists (name module : String) (st : DiskState)
    {c : String} (h : fsLookup st.files (svcPath name module) = some c) :
    serviceCmdRun name module st
      = (ensureModuleDirs module st, [Msg.alreadyExists (svcPath name module)]) := by
  unfold serviceCmdRun
  simp only [ensure_files, h]

theorem repositoryCmdRun_fresh (name module : String) (st : DiskState)
    (h : fsLookup st.files (repoPath name module) = none) :
    repositoryCmdRun name module st
      = (⟨fsSet st.files (repoPath name module) (repositoryTemplate (goTitleS name)),
          (ensureModuleDirs module st).dirs⟩,
         [Msg.created (repoPath name module)]) := by
  unfold repositoryCmdRun
  simp only [ensure_files, h]

theorem repositoryCmdRun_exists (name module : String) (st : DiskState)
    {c : String} (h : fsLookup st.files (repoPath name module) = some c) :
    repositoryCmdRun name module st
      = (ensureModuleDirs module st, [Msg.alreadyExists (repoPath name module)]) := by
  unfold repositoryCmdRun
  simp only [ensure_files, h]

/-- C1 (amended): the idempotence guarantee holds for the controller,
service and repository kinds, which perform an existence check: if the
destination file was absent, the first run creates it, and a second run
of the same command leaves the disk state untouched, reports that the
file already exists, and the file on disk keeps the content of the first
generation.  (The composite module kind performs no such check and
overwrites, see the counterexample.) -/
theorem c1_generation_idempotent_amended :
    (∀ (name module : String) (st : DiskState),
      fsLookup st.files (ctrlPath name module) = none →
        (controllerCmdRun name module (controllerCmdRun name module st).1).1
            = (controllerCmdRun name module st).1
          ∧ (controllerCmdRun name module (controllerCmdRun name module st).1).2
            = [Msg.alreadyExists (ctrlPath name module)]
          ∧ fsLookup (controllerCmdRun name module st).1.files (ctrlPath name module)
            = some (controllerTemplate (getModuleName st.files) module (goTitleS name)))
  ∧ (∀ (name module : String) (st : DiskState),
      fsLookup st.files (svcPath name module) = none →
        (serviceCmdRun name module (serviceCmdRun name module st).1).1
            = (serviceCmdRun name module st).1
          ∧ (serviceCmdRun name module (serviceCmdRun name module st).1).2
            = [Msg.alreadyExists (svcPath name module)]
          ∧ fsLookup (serviceCmdRun name module st).1.files (svcPath name module)
            = some (serviceTemplate (getModuleName st.files) module (goTitleS name)))
  ∧ (∀ (name module : String) (st : DiskState),
      fsLookup st.files (repoPath name module) = none →
        (repositoryCmdRun name module (repositoryCmdRun name module st).1).1
            = (repositoryCmdRun name module st).1
          ∧ (repositoryCmdRun name module (repositoryCmdRun name module st).1).2
            = [Msg.alreadyExists (repoPath name module)]
          ∧ fsLookup (repositoryCmdRun name module st).1.files (repoPath name module)
            = some (repositoryTemplate (goTitleS name))) := by
  refine ⟨fun name module st h => ?_, fun name module st h => ?_, fun name module st h => ?_⟩
  · rw [controllerCmdRun_fresh name module st h]
    have hl := fsLookup_fsSet_self st.files (ctrlPath name module)
      (controllerTemplate (getModuleName st.files) module (goTitleS name))
    rw [controllerCmdRun_exists name module _ hl]
    exact ⟨ensure_dirs_idem module _ st, rfl, hl⟩
  · rw [serviceCmdRun_fresh name module st h]
    have hl := fsLookup_fsSet_self st.files (svcPath name module)
      (serviceTemplate (getModuleName st.files) module (goTitleS name))
    rw [serviceCmdRun_exists name module _ hl]
    exact ⟨ensure_dirs_idem module _ st, rfl, hl⟩
  · rw [repositoryCmdRun_fresh name module st h]
    have hl := fsLookup_fsSet_self st.files (repoPath name module)
      (repositoryTemplate (goTitleS name))
    rw [repositoryCmdRun_exists name module _ hl]
    exact ⟨ensure_dirs_idem module _ st, rfl, hl⟩

/-- C1 witness: the amended theorem applied to name `user` in module `ord`
over the empty disk. -/
theorem c1_witness :
    (controllerCmdRun "user" "ord" (controllerCmdRun "user" "ord" ⟨[], []⟩).1).2
        = [Msg.alreadyExists (ctrlPath "user" "ord")]
  ∧ (serviceCmdRun "user" "ord" (serviceCmdRun "user" "ord" ⟨[], []⟩).1).2
        = [Msg.alreadyExists (svcPath "user" "ord")]
  ∧ (repositoryCmdRun "user" "ord" (repositoryCmdRun "user" "ord" ⟨[], []⟩).1).2
        = [Msg.alreadyExists (repoPath "user" "ord")] :=
  ⟨(c1_generation_idempotent_amended.1 "user" "ord" ⟨[], []⟩ rfl).2.1,
   (c1_generation_idempotent_amended.2.1 "user" "ord" ⟨[], []⟩ rfl).2.1,
   (c1_generation_idempotent_amended.2.2 "user" "ord" ⟨[], []⟩ rfl).2.1⟩

theorem joinNl_cons_of_ne_nil {a : List Char} {ls : List (List Char)} (h : ls ≠ []) :
    joinNl (a :: ls) = a ++ '\n' :: joinNl ls := by
  rcases ls with _ | ⟨l, ls'⟩
  · exact absurd rfl h
  · rfl

/-- C5: the manifest rewrite replaces a first line that starts with
`module ` wholesale by `module <newIdentifier>` and keeps every later
byte; a single-line manifest behaves the same; and when the first line
does not start with `module `, the content is returned unchanged. -/
theorem c5_manifest_rewrite :
    (∀ (first rest newM : List Char), '\n' ∉ first →
      hasPre "module ".data first = true →
      updGoModContent (first ++ '\n' :: rest) newM
        = ("module ".data ++ newM) ++ '\n' :: rest)
  ∧ (∀ (first newM : List Char), '\n' ∉ first →
      hasPre "module ".data first = true →
      updGoModContent first newM = "module ".data ++ newM)
  ∧ (∀ (content newM l0 : List Char) (ls : List (List Char)),
      splitNl content = l0 :: ls → hasPre "module ".data l0 = false →
      updGoModContent content newM = content) := by
  refine ⟨fun first rest newM h1 h2 => ?_, fun first newM h1 h2 => ?_,
    fun content newM l0 ls hsplit h2 => ?_⟩
  · unfold updGoModContent
    rw [splitNl_append_nl first rest h1]
    simp only [h2, if_pos]
    rw [joinNl_cons_of_ne_nil (splitNl_ne_nil rest), joinNl_splitNl]
  · unfold updGoModContent
    rw [splitNl_no_nl first h1]
    simp only [h2, if_pos]
    rfl
  · unfold updGoModContent
    rw [hsplit]
    simp only [h2, Bool.false_eq_true, if_false]
    rw [← hsplit, joinNl_splitNl]

/-- C5 witness: a two-line manifest `module oldmod\ngo 1.20` rewritten to
`newmod`, a one-line manifest, and a manifest with no module line. -/
theorem c5_witness :
    updGoModContent ("module oldmod".data ++ '\n' :: "go 1.20".data) "newmod".data
        = ("module ".data ++ "newmod".data) ++ '\n' :: "go 1.20".data
  ∧ updGoModContent "module oldmod".data "newmod".data
        = "module ".data ++ "newmod".data
  ∧ updGoModContent "// nothing".data "newmod".data = "// nothing".data :=
  ⟨c5_manifest_rewrite.1 "module oldmod".data "go 1.20".data "newmod".data
      (by decide) (by decide),
   c5_manifest_rewrite.2.1 "module oldmod".data "newmod".data (by decide) (by decide),
   c5_manifest_rewrite.2.2 "// nothing".data "newmod".data "// nothing".data []
      (by decide) (by decide)⟩

theorem goTitleAux_nosep : ∀ (cs : List Char) (prev : Char),
    goIsSeparator prev = false → (∀ x ∈ cs, goIsSeparator x = false) →
    goTitleAux prev cs = cs
  | [], _, _, _ => rfl
  | x :: cs, prev, hp, h => by
    simp only [goTitleAux, hp, Bool.false_eq_true, if_false]
    rw [goTitleAux_nosep cs x (h x (List.mem_cons_self x cs))
      (fun y hy => h y (List.mem_cons_of_mem x hy))]

/-- C6 fails at the raw name `My-user`: the code derives the type name
with `strings.Title`, which capitalizes the letter after the separator
`-` as well (`My-User`, not `My-user` as the claim predicts), and the
route segment is the raw name plus `s` with no lowercasing (`My-users`,
not `my-users`). -/
theorem c6_counterexample :
    nameBundle "My-user".data = ("My-User".data, "My-user".data, "My-users".data)
  ∧ "My-User".data ≠ "My-user".data
  ∧ "My-users".data ≠ "my-users".data := by
  refine ⟨by decide, by decide, by decide⟩

/-- C6 (amended): for a raw name none of whose characters is a word
separator in the `strings.Title` sense (ASCII alphanumerics and
underscore are not separators), the derivation is deterministic and
yields the name with its first character upper-cased and the rest
unchanged, the raw name itself as path segment, and the raw name with a
single appended `s` (not lowercased) as route segment. -/
theorem c6_name_derivation_amended :
    ∀ (c : Char) (cs : List Char),
      (∀ x ∈ c :: cs, goIsSeparator x = false) →
      nameBundle (c :: cs) = (Char.toUpper c :: cs, c :: cs, (c :: cs) ++ ['s']) := by
  intro c cs h
  unfold nameBundle goTitle
  simp only [goTitleAux, show goIsSeparator ' ' = true from by decide, if_true]
  rw [goTitleAux_nosep cs c (h c (List.mem_cons_self c cs))
    (fun y hy => h y (List.mem_cons_of_mem c hy))]
  rfl

/-- C6 witness: `derive("user")` yields `User` / `user` / `users`. -/
theorem c6_witness :
    nameBundle ('u' :: "ser".data)
      = (Char.toUpper 'u' :: "ser".data, 'u' :: "ser".data, ('u' :: "ser".data) ++ ['s']) :=
  c6_name_derivation_amended 'u' "ser".data (by decide)

theorem goReplaceAll_eq {p : List Char} (n s : List Char) (hp : p.isEmpty = false) :
    goReplaceAll s p n = replGo p n s := by
  unfold goReplaceAll
  rw [if_neg (by simp [hp])]

/-- C4: the tree-wide rewrite of `oldmod` to `newmod` turns every displayed
occurrence of `oldmod/pkg` into `newmod/pkg` while the longer unrelated
identifier occurrence `oldmodx/pkg` stays byte-for-byte unchanged (the
surrounding context is rewritten independently), and, in general, content
with no occurrence of `oldmod` followed by the path separator is returned
completely unchanged. -/
theorem c4_boundary_safe_rewrite :
    (∀ u v w : List Char,
      updContent "oldmod".data "newmod".data
          (u ++ ("oldmod/pkg".data ++ (v ++ ("oldmodx/pkg".data ++ w))))
        = replGo "oldmod/".data "newmod/".data u ++ ("newmod/pkg".data
            ++ (replGo "oldmod/".data "newmod/".data v ++ ("oldmodx/pkg".data
            ++ replGo "oldmod/".data "newmod/".data w))))
  ∧ (∀ s : List Char, ¬ ("oldmod/".data <:+: s) →
      updContent "oldmod".data "newmod".data s = s) := by
  have hp : ("oldmod/".data).isEmpty = false := by decide
  have hpn : ("oldmod/".data).length ≤ ("newmod/".data).length := by decide
  have hq : '"' ∉ "newmod/".data := by decide
  have hAB : ∀ k, k < ("oldmod/".data).length →
      ¬ (List.drop k "oldmod/".data <+: "newmod/".data) := by decide
  have hbridge₁ : "oldmod".data ++ ['/'] = "oldmod/".data := by decide
  have hbridge₂ : "newmod".data ++ ['/'] = "newmod/".data := by decide
  have hLA : ∀ v, replGo "oldmod/".data "newmod/".data ("oldmod/pkg".data ++ v)
      = "newmod/pkg".data ++ replGo "oldmod/".data "newmod/".data v := by
    intro v
    have h1 : "oldmod/pkg".data ++ v = 'o' :: ("ldmod/pkg".data ++ v) := by
      rw [show "oldmod/pkg".data = 'o' :: "ldmod/pkg".data from by decide]
      rfl
    have hpre : "oldmod/".data <+: 'o' :: ("ldmod/pkg".data ++ v) := by
      rw [← h1]
      exact (show "oldmod/".data <+: "oldmod/pkg".data from by decide).trans
        ( List.prefix_append "oldmod/pkg".data v)
    rw [h1, replGo_cons_pos _ hp (hasPre_of_pre hpre)]
    have h2 : List.drop (("oldmod/".data).length - 1) ("ldmod/pkg".data ++ v)
        = "pkg".data ++ v := by
      rw [show "ldmod/pkg".data = "ldmod/".data ++ "pkg".data from by decide,
        List.append_assoc,
        show ("oldmod/".data).length - 1 = ("ldmod/".data).length from by decide,
        List.drop_left]
    rw [h2, replGo_scan "pkg".data (by decide) (by decide) v]
    rw [show "newmod/pkg".data = "newmod/".data ++ "pkg".data from by decide,
      List.append_assoc]
  have hLB : ∀ w, replGo "oldmod/".data "newmod/".data ("oldmodx/pkg".data ++ w)
      = "oldmodx/pkg".data ++ replGo "oldmod/".data "newmod/".data w :=
    fun w => replGo_scan "oldmodx/pkg".data (by decide) (by decide) w
  constructor
  · intro u v w
    unfold updContent
    rw [hbridge₁, hbridge₂, goReplaceAll_eq _ _ hp, goReplaceAll_eq _ _ (by decide),
      replGo_id_of_no_occ _ (replGo_no_quoted_all hp hpn hq hAB _),
      replGo_split "oldmod/".data "newmod/".data "oldmod/pkg".data hp (by decide)
        (by decide) u.length u le_rfl (v ++ ("oldmodx/pkg".data ++ w)),
      hLA,
      replGo_split "oldmod/".data "newmod/".data "oldmodx/pkg".data hp (by decide)
        (by decide) v.length v le_rfl w,
      hLB]
  · intro s hno
    unfold updContent
    rw [hbridge₁, hbridge₂, goReplaceAll_eq _ _ hp, goReplaceAll_eq _ _ (by decide),
      replGo_id_of_no_occ s hno]
    exact replGo_id_of_no_occ s
      (fun hocc => hno (( List.IsSuffix.isInfix ⟨['"'], rfl⟩).trans hocc))

/-- C4 witness: the theorem applied at concrete context strings, and the
no-boundary-occurrence part applied at a content without `oldmod/`. -/
theorem c4_witness :
    updContent "oldmod".data "newmod".data
        ("import ".data ++ ("oldmod/pkg".data ++ ("; ".data ++ ("oldmodx/pkg".data ++ [] ))))
      = replGo "oldmod/".data "newmod/".data "import ".data ++ ("newmod/pkg".data
          ++ (replGo "oldmod/".data "newmod/".data "; ".data ++ ("oldmodx/pkg".data
          ++ replGo "oldmod/".data "newmod/".data [])))
  ∧ updContent "oldmod".data "newmod".data "oldmodx alone".data = "oldmodx alone".data :=
  ⟨c4_boundary_safe_rewrite.1 "import ".data "; ".data [],
   c4_boundary_safe_rewrite.2 "oldmodx alone".data (by decide)⟩

theorem isEmpty_eq_false_of_ne {p : List Char} (h : p ≠ []) : p.isEmpty = false := by
  rcases p with _ | ⟨a, l⟩
  · exact absurd rfl h
  · rfl

/-- C7 fails as stated: with `old = "mod"` and `new = "mod/rest"` (which
contains no quote character), on the content `"mod/x` (a quoted import
head), the first pass produces `"mod/rest/x` and the second pass then
substitutes again inside the first pass's own output, yielding
`"mod/rest/rest/x` — a double substitution. -/
theorem c7_counterexample :
    '"' ∉ "mod/rest".data
  ∧ updContent "mod".data "mod/rest".data "\"mod/x".data
      ≠ goReplaceAll "\"mod/x".data ("mod".data ++ ['/']) ("mod/rest".data ++ ['/']) :=
  ⟨by decide, by decide⟩

/-- C7 (amended): the second, quoted-form pass is redundant provided the
new identifier contains no quote character, is at least as long as the
old identifier, and no nonempty suffix of `old ++ "/"` is a prefix of
`new ++ "/"` (this last condition is what the counterexample violates):
under these conditions the two passes produce exactly the output of the
first pass alone and never double-substitute. -/
theorem c7_second_pass_amended :
    ∀ (oldM newM s : List Char), oldM.isEmpty = false → '"' ∉ newM →
      oldM.length ≤ newM.length →
      (∀ k, k < (oldM ++ ['/']).length →
        ¬ (List.drop k (oldM ++ ['/']) <+: newM ++ ['/'])) →
      updContent oldM newM s = goReplaceAll s (oldM ++ ['/']) (newM ++ ['/']) := by
  intro oldM newM s h1 h2 h3 h4
  have hp : (oldM ++ ['/']).isEmpty = false := isEmpty_eq_false_of_ne (by simp)
  have hlen : (oldM ++ ['/']).length ≤ (newM ++ ['/']).length := by
    simp only [List.length_append, List.length_cons, List.length_nil]
    omega
  have hq : '"' ∉ newM ++ ['/'] := by
    intro hmem
    rcases List.mem_append.mp hmem with h | h
    · exact h2 h
    · simp at h
  unfold updContent
  rw [goReplaceAll_eq _ _ hp, goReplaceAll_eq _ _ (isEmpty_eq_false_of_ne (by simp))]
  exact replGo_id_of_no_occ _ (replGo_no_quoted_all hp hlen hq h4 s)

/-- C7 witness: the amended theorem applied to the real rebrand pair
`goNext` to `myproj` on a quoted import line. -/
theorem c7_witness :
    updContent "goNext".data "myproj".data "import \"goNext/app\"".data
      = goReplaceAll "import \"goNext/app\"".data
          ("goNext".data ++ ['/']) ("myproj".data ++ ['/']) :=
  c7_second_pass_amended "goNext".data "myproj".data "import \"goNext/app\"".data
    (by decide) (by decide) (by decide) (by decide)

/-- C2 fails as stated: in a world where git, the clone and the rename
all succeed but the cloned tree has no `go.mod`, the command reports the
`go.mod` error and then *continues*: the tree-wide import rewrite still
executes (the `.go` file is rewritten from `goNext` to `myproj`) and the
success message is still printed. -/
theorem c2_counterexample :
    newCmdRun "proj"
        ⟨true, true, true, true, "myproj",
         [⟨"main.go", "import \"goNext/app\"", true, true⟩], true⟩
      = ⟨[Msg.cloning, Msg.errUpdateGoMod, Msg.success "proj", Msg.tidyReminder],
         [Act.cloneStep, Act.removeGitStep, Act.renameStep, Act.goModStep, Act.importsStep],
         some [⟨"main.go", "import \"myproj/app\"", true, true⟩]⟩
  ∧ ("import \"myproj/app\"" : String) ≠ "import \"goNext/app\"" :=
  ⟨by decide, by decide⟩

/-- C2 (amended): if the manifest is absent when the identifier rewrite
runs, the error is reported but the rebrand is not aborted: the
tree-wide import rewrite still executes over the cloned tree and the
success message is still printed. -/
theorem c2_manifest_missing_amended :
    ∀ (projectName : String) (w : NewWorld),
      w.gitAvailable = true → w.cloneOk = true → w.renameOk = true →
      findFile w.cloned "go.mod" = none →
      Msg.errUpdateGoMod ∈ (newCmdRun projectName w).msgs
      ∧ Msg.success projectName ∈ (newCmdRun projectName w).msgs
      ∧ Act.importsStep ∈ (newCmdRun projectName w).acts
      ∧ (newCmdRun projectName w).files
          = some (updateImportsFS w.rootReadable "goNext"
              (if String.mk (trimSpace w.moduleInput.data) = "" then projectName
               else String.mk (trimSpace w.moduleInput.data)) w.cloned).1 := by
  intro pn w hgit hclone hrename hfind
  unfold newCmdRun
  rw [hgit, hclone, hrename]
  simp only [Bool.true_eq_false, if_false]
  unfold updateGoModFS
  rw [hfind]
  simp [List.mem_append]

/-- C2 witness: the amended theorem at a concrete world whose cloned
tree has one source file and no manifest. -/
theorem c2_witness :
    Msg.errUpdateGoMod ∈ (newCmdRun "proj"
        ⟨true, true, true, true, "", [⟨"main.go", "x", true, true⟩], true⟩).msgs
  ∧ Msg.success "proj" ∈ (newCmdRun "proj"
        ⟨true, true, true, true, "", [⟨"main.go", "x", true, true⟩], true⟩).msgs :=
  ⟨(c2_manifest_missing_amended "proj"
      ⟨true, true, true, true, "", [⟨"main.go", "x", true, true⟩], true⟩
      rfl rfl rfl rfl).1,
   (c2_manifest_missing_amended "proj"
      ⟨true, true, true, true, "", [⟨"main.go", "x", true, true⟩], true⟩
      rfl rfl rfl rfl).2.1⟩

/-- C3 fails as stated: with a readable root, a first `.go` file whose
read fails and a second `.go` file that would be rewritten, the walk
aborts at the first file — the error is returned, the second file is
left untouched (its rewrite would have changed it), so the walk does not
continue over the remaining files. -/
theorem c3_counterexample :
    updateImportsFS true "goNext" "newmod"
        [⟨"a.go", "x", false, true⟩, ⟨"b.go", "import \"goNext/app\"", true, true⟩]
      = ([⟨"a.go", "x", false, true⟩, ⟨"b.go", "import \"goNext/app\"", true, true⟩], true)
  ∧ updContentS "goNext" "newmod" "import \"goNext/app\"" ≠ "import \"goNext/app\"" :=
  ⟨by decide, by decide⟩

/-- C3 (amended): a failure to read an individual `.go` file, or to write
one the rewrite changed, aborts the tree walk — the failing file and all
later files are left unprocessed and the rewrite returns the error
(which the caller prints once and then continues past); inability to
open the project root is likewise an error with nothing processed. -/
theorem c3_walk_abort_amended :
    (∀ (oldM newM : String) (files : List WalkFile),
      updateImportsFS false oldM newM files = (files, true))
  ∧ (∀ (oldM newM : String) (f : WalkFile) (rest : List WalkFile),
      hasSuf ".go".data f.path.data = true → f.readOk = false →
      updateImportsFS true oldM newM (f :: rest) = (f :: rest, true))
  ∧ (∀ (oldM newM : String) (f : WalkFile) (rest : List WalkFile),
      hasSuf ".go".data f.path.data = true → f.readOk = true → f.writeOk = false →
      updContentS oldM newM f.content ≠ f.content →
      updateImportsFS true oldM newM (f :: rest) = (f :: rest, true)) := by
  refine ⟨fun oldM newM files => rfl, fun oldM newM f rest hgo hread => ?_,
    fun oldM newM f rest hgo hread hwrite hchanged => ?_⟩
  · unfold updateImportsFS updateImportsGo
    simp [hgo, hread]
  · unfold updateImportsFS updateImportsGo
    simp [hgo, hread, hwrite, hchanged]

/-- C3 witness: the amended theorem at a closed root failure, a closed
read failure and a closed write failure. -/
theorem c3_witness :
    updateImportsFS false "goNext" "m" [⟨"a.go", "x", true, true⟩]
        = ([⟨"a.go", "x", true, true⟩], true)
  ∧ updateImportsFS true "goNext" "m"
        [⟨"a.go", "x", false, true⟩, ⟨"b.go", "y", true, true⟩]
      = ([⟨"a.go", "x", false, true⟩, ⟨"b.go", "y", true, true⟩], true)
  ∧ updateImportsFS true "goNext" "m" [⟨"a.go", "goNext/app", true, false⟩]
      = ([⟨"a.go", "goNext/app", true, false⟩], true) :=
  ⟨c3_walk_abort_amended.1 "goNext" "m" [⟨"a.go", "x", true, true⟩],
   c3_walk_abort_amended.2.1 "goNext" "m" ⟨"a.go", "x", false, true⟩
      [⟨"b.go", "y", true, true⟩] (by decide) rfl,
   c3_walk_abort_amended.2.2 "goNext" "m" ⟨"a.go", "goNext/app", true, false⟩ []
      (by decide) rfl rfl (by decide)⟩

/-- C9: the template fetch-and-rename error policy of `newCmd`: a missing
clone tool aborts before any clone; a clone failure aborts before the
strip and the rename; a rename failure aborts before the prompt and the
rewrites (whether or not the `.git` strip failed, which at most adds a
warning); but a failed `.git` strip alone is only a warning — the
rename, both rewrites and the success output still happen. -/
theorem c9_fetch_error_handling :
    (∀ (pn : String) (w : NewWorld), w.gitAvailable = false →
      newCmdRun pn w = ⟨[Msg.gitMissing], [], none⟩)
  ∧ (∀ (pn : String) (w : NewWorld), w.gitAvailable = true → w.cloneOk = false →
      newCmdRun pn w = ⟨[Msg.cloning, Msg.cloneFailed], [Act.cloneStep], none⟩)
  ∧ (∀ (pn : String) (w : NewWorld), w.gitAvailable = true → w.cloneOk = true →
      w.renameOk = false →
      newCmdRun pn w
        = ⟨[Msg.cloning] ++ (if w.removeGitOk = false then [Msg.warnRemoveGit] else [])
            ++ [Msg.renameFailed], [Act.cloneStep, Act.removeGitStep], none⟩)
  ∧ (∀ (pn : String) (w : NewWorld), w.gitAvailable = true → w.cloneOk = true →
      w.removeGitOk = false → w.renameOk = true →
      Msg.warnRemoveGit ∈ (newCmdRun pn w).msgs
      ∧ Msg.success pn ∈ (newCmdRun pn w).msgs
      ∧ Act.renameStep ∈ (newCmdRun pn w).acts
      ∧ Act.importsStep ∈ (newCmdRun pn w).acts
      ∧ (newCmdRun pn w).files ≠ none) := by
  refine ⟨fun pn w hgit => ?_, fun pn w hgit hclone => ?_,
    fun pn w hgit hclone hrename => ?_, fun pn w hgit hclone hrm hrename => ?_⟩
  · unfold newCmdRun
    rw [hgit]
    rfl
  · unfold newCmdRun
    rw [hgit, hclone]
    rfl
  · unfold newCmdRun
    rw [hgit, hclone, hrename]
    rfl
  · unfold newCmdRun
    rw [hgit, hclone, hrename, hrm]
    simp [List.mem_append]

/-- C9 witness: the four conjuncts at concrete worlds (git missing; clone
failing; rename failing with the strip also failing; strip failing
alone). -/
theorem c9_witness :
    newCmdRun "p" ⟨false, true, true, true, "", [], true⟩ = ⟨[Msg.gitMissing], [], none⟩
  ∧ newCmdRun "p" ⟨true, false, true, true, "", [], true⟩
      = ⟨[Msg.cloning, Msg.cloneFailed], [Act.cloneStep], none⟩
  ∧ newCmdRun "p" ⟨true, true, false, false, "", [], true⟩
      = ⟨[Msg.cloning] ++ [Msg.warnRemoveGit] ++ [Msg.renameFailed],
         [Act.cloneStep, Act.removeGitStep], none⟩
  ∧ Msg.warnRemoveGit ∈ (newCmdRun "p" ⟨true, true, false, true, "", [], true⟩).msgs :=
  ⟨c9_fetch_error_handling.1 "p" ⟨false, true, true, true, "", [], true⟩ rfl,
   c9_fetch_error_handling.2.1 "p" ⟨true, false, true, true, "", [], true⟩ rfl rfl,
   by
     have h := c9_fetch_error_handling.2.2.1 "p" ⟨true, true, false, false, "", [], true⟩
       rfl rfl rfl
     simpa using h,
   (c9_fetch_error_handling.2.2.2 "p" ⟨true, true, false, true, "", [], true⟩
      rfl rfl rfl rfl).1⟩

theorem ne_of_tail_ne (n : String) {s₁ s₂ : String} (h : s₁.data ≠ s₂.data) :
    ("internal/" ++ n ++ s₁) ≠ ("internal/" ++ n ++ s₂) := by
  intro hh
  have h2 := congrArg String.data hh
  simp only [String.data_append, List.append_assoc] at h2
  exact h (List.append_cancel_left (List.append_cancel_left h2))

theorem path_pair_ne (n : String) {a b : String} (s₁ s₂ : String)
    (ha : a = "internal/" ++ n ++ s₁) (hb : b = "internal/" ++ n ++ s₂)
    (h : s₁.data ≠ s₂.data) : a ≠ b := by
  rw [ha, hb]
  exact ne_of_tail_ne n h

theorem ne_of_take3 {l₁ l₂ : List Char} (h : l₁.take 3 ≠ l₂.take 3) : l₁ ≠ l₂ :=
  fun hh => h (congrArg (List.take 3) hh)

theorem take_append_of_long {a : List Char} (b : List Char) {k : Nat} (h : k ≤ a.length) :
    (a ++ b).take k = a.take k := by
  rw [List.take_append_eq_append_take, Nat.sub_eq_zero_of_le h, List.take_zero,
    List.append_nil]

theorem fsSet_five (fs : Files) (p₁ p₂ p₃ p₄ p₅ c₁ c₂ c₃ c₄ c₅ : String)
    (h₁ : fsLookup fs p₁ = none) (h₂ : fsLookup fs p₂ = none)
    (h₃ : fsLookup fs p₃ = none) (h₄ : fsLookup fs p₄ = none)
    (h₅ : fsLookup fs p₅ = none)
    (n₂₁ : ¬ p₁ = p₂) (n₃₁ : ¬ p₁ = p₃) (n₃₂ : ¬ p₂ = p₃)
    (n₄₁ : ¬ p₁ = p₄) (n₄₂ : ¬ p₂ = p₄) (n₄₃ : ¬ p₃ = p₄)
    (n₅₁ : ¬ p₁ = p₅) (n₅₂ : ¬ p₂ = p₅) (n₅₃ : ¬ p₃ = p₅) (n₅₄ : ¬ p₄ = p₅) :
    fsSet (fsSet (fsSet (fsSet (fsSet fs p₁ c₁) p₂ c₂) p₃ c₃) p₄ c₄) p₅ c₅
      = fs ++ [(p₁, c₁), (p₂, c₂), (p₃, c₃), (p₄, c₄), (p₅, c₅)] := by
  have l₁ : fsSet fs p₁ c₁ = fs ++ [(p₁, c₁)] := fsSet_fresh fs p₁ c₁ h₁
  have k₂ : fsLookup (fs ++ [(p₁, c₁)]) p₂ = none :=
    fsLookup_append_none _ _ _ h₂ (fsLookup_single_ne _ n₂₁)
  have l₂ : fsSet (fsSet fs p₁ c₁) p₂ c₂ = fs ++ [(p₁, c₁)] ++ [(p₂, c₂)] := by
    rw [l₁]; exact fsSet_fresh _ p₂ c₂ k₂
  have k₃ : fsLookup (fs ++ [(p₁, c₁)] ++ [(p₂, c₂)]) p₃ = none :=
    fsLookup_append_none _ _ _
      (fsLookup_append_none _ _ _ h₃ (fsLookup_single_ne _ n₃₁))
      (fsLookup_single_ne _ n₃₂)
  have l₃ : fsSet (fsSet (fsSet fs p₁ c₁) p₂ c₂) p₃ c₃
      = fs ++ [(p₁, c₁)] ++ [(p₂, c₂)] ++ [(p₃, c₃)] := by
    rw [l₂]; exact fsSet_fresh _ p₃ c₃ k₃
  have k₄ : fsLookup (fs ++ [(p₁, c₁)] ++ [(p₂, c₂)] ++ [(p₃, c₃)]) p₄ = none :=
    fsLookup_append_none _ _ _
      (fsLookup_append_none _ _ _
        (fsLookup_append_none _ _ _ h₄ (fsLookup_single_ne _ n₄₁))
        (fsLookup_single_ne _ n₄₂))
      (fsLookup_single_ne _ n₄₃)
  have l₄ : fsSet (fsSet (fsSet (fsSet fs p₁ c₁) p₂ c₂) p₃ c₃) p₄ c₄
      = fs ++ [(p₁, c₁)] ++ [(p₂, c₂)] ++ [(p₃, c₃)] ++ [(p₄, c₄)] := by
    rw [l₃]; exact fsSet_fresh _ p₄ c₄ k₄
  have k₅ : fsLookup (fs ++ [(p₁, c₁)] ++ [(p₂, c₂)] ++ [(p₃, c₃)] ++ [(p₄, c₄)]) p₅
      = none :=
    fsLookup_append_none _ _ _
      (fsLookup_append_none _ _ _
        (fsLookup_append_none _ _ _
          (fsLookup_append_none _ _ _ h₅ (fsLookup_single_ne _ n₅₁))
          (fsLookup_single_ne _ n₅₂))
        (fsLookup_single_ne _ n₅₃))
      (fsLookup_single_ne _ n₅₄)
  rw [l₄, fsSet_fresh _ p₅ c₅ k₅]
  simp [List.append_assoc]

theorem addDir_four (ds : List String) (d₁ d₂ d₃ d₄ : String)
    (h₁ : d₁ ∉ ds) (h₂ : d₂ ∉ ds) (h₃ : d₃ ∉ ds) (h₄ : d₄ ∉ ds)
    (n₂₁ : d₂ ≠ d₁) (n₃₁ : d₃ ≠ d₁) (n₃₂ : d₃ ≠ d₂)
    (n₄₁ : d₄ ≠ d₁) (n₄₂ : d₄ ≠ d₂) (n₄₃ : d₄ ≠ d₃) :
    addDir (addDir (addDir (addDir ds d₁) d₂) d₃) d₄ = ds ++ [d₁, d₂, d₃, d₄] := by
  have a₁ : addDir ds d₁ = ds ++ [d₁] := by simp [addDir, h₁]
  have a₂ : addDir (ds ++ [d₁]) d₂ = ds ++ [d₁] ++ [d₂] := by
    simp [addDir, h₂, n₂₁]
  have a₃ : addDir (ds ++ [d₁] ++ [d₂]) d₃ = ds ++ [d₁] ++ [d₂] ++ [d₃] := by
    simp [addDir, h₃, n₃₁, n₃₂]
  have a₄ : addDir (ds ++ [d₁] ++ [d₂] ++ [d₃]) d₄
      = ds ++ [d₁] ++ [d₂] ++ [d₃] ++ [d₄] := by
    simp [addDir, h₄, n₄₁, n₄₂, n₄₃]
  rw [a₁, a₂, a₃, a₄]
  simp [List.append_assoc]

theorem infix_mid {a b : String} (x : String) : x.data <:+: (a ++ (x ++ b)).data := by
  refine ⟨a.data, b.data, ?_⟩
  simp [String.data_append, List.append_assoc]

/-- C8: scaffolding a module whose five destination files and four
subdirectories do not yet exist creates exactly those five files (and
nothing else) under the freshly created four-subdirectory skeleton, with
the five contents all rendered from the single name bundle of the raw
name and the single owning-module identifier read once from the
manifest; each import-bearing generated file contains the corresponding
quoted import reference prefixed by that same identifier. -/
theorem c8_module_scaffold :
    ∀ (name : String) (st : DiskState),
      fsLookup st.files (moduleGoPath name) = none →
      fsLookup st.files (ctrlPath name name) = none →
      fsLookup st.files (svcPath name name) = none →
      fsLookup st.files (repoPath name name) = none →
      fsLookup st.files (routePath name name) = none →
      subdirPath name "controller" ∉ st.dirs →
      subdirPath name "repository" ∉ st.dirs →
      subdirPath name "route" ∉ st.dirs →
      subdirPath name "service" ∉ st.dirs →
      (moduleCmdRun name st).1.files
          = st.files
            ++ [(moduleGoPath name,
                 moduleTemplate name (getModuleName st.files) (goTitleS name)),
                (ctrlPath name name,
                 controllerTemplate (getModuleName st.files) name (goTitleS name)),
                (svcPath name name,
                 serviceTemplate (getModuleName st.files) name (goTitleS name)),
                (repoPath name name, repositoryTemplate (goTitleS name)),
                (routePath name name,
                 routeTemplate (getModuleName st.files) name (goTitleS name))]
      ∧ (moduleCmdRun name st).1.dirs
          = st.dirs ++ [subdirPath name "controller", subdirPath name "repository",
              subdirPath name "route", subdirPath name "service"]
      ∧ (moduleCmdRun name st).2 = [Msg.moduleCreated name]
      ∧ (importRef (getModuleName st.files) "app").data
          <:+: (moduleTemplate name (getModuleName st.files) (goTitleS name)).data
      ∧ (importRef (getModuleName st.files) ("internal/" ++ name ++ "/service")).data
          <:+: (controllerTemplate (getModuleName st.files) name (goTitleS name)).data
      ∧ (importRef (getModuleName st.files) ("internal/" ++ name ++ "/repository")).data
          <:+: (serviceTemplate (getModuleName st.files) name (goTitleS name)).data
      ∧ (importRef (getModuleName st.files) ("internal/" ++ name ++ "/controller")).data
          <:+: (routeTemplate (getModuleName st.files) name (goTitleS name)).data := by
  intro name st h1 h2 h3 h4 h5 v1 v2 v3 v4
  have hmg : moduleGoPath name = "internal/" ++ name ++ "/module.go" := rfl
  have hcp : ctrlPath name name
      = "internal/" ++ name ++ ("/controller/" ++ name ++ "Controller.go") := by
    simp [ctrlPath, String.append_assoc]
  have hsp : svcPath name name
      = "internal/" ++ name ++ ("/service/" ++ name ++ "Service.go") := by
    simp [svcPath, String.append_assoc]
  have hrp : repoPath name name
      = "internal/" ++ name ++ ("/repository/" ++ name ++ "Repository.go") := by
    simp [repoPath, String.append_assoc]
  have hrt : routePath name name
      = "internal/" ++ name ++ ("/route/" ++ name ++ "Route.go") := by
    simp [routePath, String.append_assoc]
  have n21 : ¬ moduleGoPath name = ctrlPath name name :=
    path_pair_ne name _ _ hmg hcp (by
      apply ne_of_take3
      simp only [String.data_append, List.append_assoc]
      rw [take_append_of_long _ (by decide)]
      decide)
  have n31 : ¬ moduleGoPath name = svcPath name name :=
    path_pair_ne name _ _ hmg hsp (by
      apply ne_of_take3
      simp only [String.data_append, List.append_assoc]
      rw [take_append_of_long _ (by decide)]
      decide)
  have n32 : ¬ ctrlPath name name = svcPath name name :=
    path_pair_ne name _ _ hcp hsp (by
      apply ne_of_take3
      simp only [String.data_append, List.append_assoc]
      rw [take_append_of_long _ (by decide), take_append_of_long _ (by decide)]
      decide)
  have n41 : ¬ moduleGoPath name = repoPath name name :=
    path_pair_ne name _ _ hmg hrp (by
      apply ne_of_take3
      simp only [String.data_append, List.append_assoc]
      rw [take_append_of_long _ (by decide)]
      decide)
  have n42 : ¬ ctrlPath name name = repoPath name name :=
    path_pair_ne name _ _ hcp hrp (by
      apply ne_of_take3
      simp only [String.data_append, List.append_assoc]
      rw [take_append_of_long _ (by decide), take_append_of_long _ (by decide)]
      decide)
  have n43 : ¬ svcPath name name = repoPath name name :=
    path_pair_ne name _ _ hsp hrp (by
      apply ne_of_take3
      simp only [String.data_append, List.append_assoc]
      rw [take_append_of_long _ (by decide), take_append_of_long _ (by decide)]
      decide)
  have n51 : ¬ moduleGoPath name = routePath name name :=
    path_pair_ne name _ _ hmg hrt (by
      apply ne_of_take3
      simp only [String.data_append, List.append_assoc]
      rw [take_append_of_long _ (by decide)]
      decide)
  have n52 : ¬ ctrlPath name name = routePath name name :=
    path_pair_ne name _ _ hcp hrt (by
      apply ne_of_take3
      simp only [String.data_append, List.append_assoc]
      rw [take_append_of_long _ (by decide), take_append_of_long _ (by decide)]
      decide)
  have n53 : ¬ svcPath name name = routePath name name :=
    path_pair_ne name _ _ hsp hrt (by
      apply ne_of_take3
      simp only [String.data_append, List.append_assoc]
      rw [take_append_of_long _ (by decide), take_append_of_long _ (by decide)]
      decide)
  have n54 : ¬ repoPath name name = routePath name name :=
    path_pair_ne name _ _ hrp hrt (by
      apply ne_of_take3
      simp only [String.data_append, List.append_assoc]
      rw [take_append_of_long _ (by decide), take_append_of_long _ (by decide)]
      decide)
  have hdC : subdirPath name "controller" = "internal/" ++ name ++ ("/" ++ "controller") := by
    simp [subdirPath, String.append_assoc]
  have hdR : subdirPath name "repository" = "internal/" ++ name ++ ("/" ++ "repository") := by
    simp [subdirPath, String.append_assoc]
  have hdT : subdirPath name "route" = "internal/" ++ name ++ ("/" ++ "route") := by
    simp [subdirPath, String.append_assoc]
  have hdS : subdirPath name "service" = "internal/" ++ name ++ ("/" ++ "service") := by
    simp [subdirPath, String.append_assoc]
  have s21 : subdirPath name "repository" ≠ subdirPath name "controller" :=
    path_pair_ne name _ _ hdR hdC (by decide)
  have s31 : subdirPath name "route" ≠ subdirPath name "controller" :=
    path_pair_ne name _ _ hdT hdC (by decide)
  have s32 : subdirPath name "route" ≠ subdirPath name "repository" :=
    path_pair_ne name _ _ hdT hdR (by decide)
  have s41 : subdirPath name "service" ≠ subdirPath name "controller" :=
    path_pair_ne name _ _ hdS hdC (by decide)
  have s42 : subdirPath name "service" ≠ subdirPath name "repository" :=
    path_pair_ne name _ _ hdS hdR (by decide)
  have s43 : subdirPath name "service" ≠ subdirPath name "route" :=
    path_pair_ne name _ _ hdS hdT (by decide)
  refine ⟨?_, ?_, rfl, infix_mid _, infix_mid _, infix_mid _, infix_mid _⟩
  · show (moduleCmdRun name st).1.files = _
    unfold moduleCmdRun
    simp only [ensure_files]
    exact fsSet_five st.files _ _ _ _ _ _ _ _ _ _ h1 h2 h3 h4 h5
      n21 n31 n32 n41 n42 n43 n51 n52 n53 n54
  · show (moduleCmdRun name st).1.dirs = _
    unfold moduleCmdRun ensureModuleDirs
    simp only
    exact addDir_four st.dirs _ _ _ _ v1 v2 v3 v4 s21 s31 s32 s41 s42 s43

/-- C8 witness: scaffolding module `order` on an empty disk. -/
theorem c8_witness :
    (moduleCmdRun "order" ⟨[], []⟩).2 = [Msg.moduleCreated "order"]
  ∧ (moduleCmdRun "order" ⟨[], []⟩).1.dirs
      = [] ++ [subdirPath "order" "controller", subdirPath "order" "repository",
          subdirPath "order" "route", subdirPath "order" "service"] :=
  ⟨(c8_module_scaffold "order" ⟨[], []⟩ rfl rfl rfl rfl rfl (by simp) (by simp)
      (by simp) (by simp)).2.2.1,
   (c8_module_scaffold "order" ⟨[], []⟩ rfl rfl rfl rfl rfl (by simp) (by simp)
      (by simp) (by simp)).2.1⟩

/-- C10: when the manifest cannot be read, or its first line does not
start with `module `, component generation does not fail: the owning
module silently falls back to the literal `myproject`, and a controller
generation then proceeds normally, writing a file whose import path is
prefixed by `myproject`. -/
theorem c10_manifest_fallback :
    (∀ fs : Files, fsLookup fs "go.mod" = none → getModuleName fs = "myproject")
  ∧ (∀ (fs : Files) (c : String) (l0 : List Char) (ls : List (List Char)),
      fsLookup fs "go.mod" = some c → splitNl c.data = l0 :: ls →
      hasPre "module ".data l0 = false → getModuleName fs = "myproject")
  ∧ (∀ (name module : String) (st : DiskState),
      getModuleName st.files = "myproject" →
      fsLookup st.files (ctrlPath name module) = none →
      (controllerCmdRun name module st).2 = [Msg.created (ctrlPath name module)]
      ∧ fsLookup (controllerCmdRun name module st).1.files (ctrlPath name module)
          = some (controllerTemplate "myproject" module (goTitleS name))
      ∧ (importRef "myproject" ("internal/" ++ module ++ "/service")).data
          <:+: (controllerTemplate "myproject" module (goTitleS name)).data) := by
  refine ⟨fun fs h => ?_, fun fs c l0 ls hl hs hpre => ?_,
    fun name module st hm hfree => ?_⟩
  · unfold getModuleName
    rw [h]
  · unfold getModuleName
    rw [hl]
    simp only [hs, hpre, Bool.false_eq_true, if_false]
  · rw [controllerCmdRun_fresh name module st hfree, hm]
    exact ⟨rfl, fsLookup_fsSet_self _ _ _, infix_mid _⟩

/-- C10 witness: a disk with no readable manifest line (`go.mod` holds no
module declaration) still generates a controller with the `myproject`
fallback import prefix. -/
theorem c10_witness :
    getModuleName [] = "myproject"
  ∧ getModuleName [("go.mod", "garbage")] = "myproject"
  ∧ (controllerCmdRun "user" "ord" ⟨[("go.mod", "garbage")], []⟩).2
      = [Msg.created (ctrlPath "user" "ord")] :=
  ⟨c10_manifest_fallback.1 [] rfl,
   c10_manifest_fallback.2.1 [("go.mod", "garbage")] "garbage" "garbage".data []
     rfl (by decide) (by decide),
   (c10_manifest_fallback.2.2 "user" "ord" ⟨[("go.mod", "garbage")], []⟩
     (by decide) rfl).1⟩
